import Mathlib

/-!
Subsurface: dive-plan construction, dive-site iteration and profile analysis.

A shallow embedding of

* `src/apps/CustomDivePlan.cpp` : `createDivePlanFromComputer`, `planDeco`;
* `src/core/divesite.h`         : `get_dive_site`, `for_each_dive_site`;
* `src/profile.c`               : `analyze_plot_info_minmax_minute`, `analyze_plot_info`.

Conventions.

* A C `int` is 32 bits wide.  It is embedded as an `Int`, and the arithmetic
  on sample times, entry times and depths (`add32`, `sub32`, `mul32`) keeps the
  low 32 bits of the exact result, read in two's complement (`wrap32`).  The
  theorems state the range of their inputs; inside it no operation wraps.
  The loop bounds `dc.samples - 1` and `nr - 2` and the product
  `90 * (index + 1)` are written exactly: they stay in range for every count
  that is not negative and every `index ≤ 2`.
* A pointer into an array is embedded as the index of the element it points
  to; an array that is only reached through a pointer (`dc.sample`,
  `ds_table->dive_sites`, the flexible member `entry[]`) is embedded as the
  function from index to element, beside the element count the struct holds.
* A possibly-null pointer is an `Option`.
-/

namespace Subsurface

/-! ## 32-bit `int` arithmetic -/

/-- The value of a 32-bit `int` that is assigned the exact result `x`: the
residue of `x` modulo `2^32` that lies in `-2^31 .. 2^31 - 1`. -/
def wrap32 (x : Int) : Int :=
  (x + 2147483648) % 4294967296 - 2147483648

/-- The C expression `a + b` on two `int`s. -/
def add32 (a b : Int) : Int := wrap32 (a + b)

/-- The C expression `a - b` on two `int`s. -/
def sub32 (a b : Int) : Int := wrap32 (a - b)

/-- The C expression `a * b` on two `int`s. -/
def mul32 (a b : Int) : Int := wrap32 (a * b)

/-! ## Data model of `CustomDivePlan` -/

/-- A logged sample (`struct sample`), restricted to the fields that
`FastDiveInfo::fromSample` reads: `time.seconds`, `ndl.seconds`, `depth.mm`. -/
structure sample where
  time : Int
  ndl : Int
  depth : Int
  deriving DecidableEq, Repr, Inhabited

/-- The class `FastDiveInfo` of `CustomDivePlan.hpp`. -/
structure FastDiveInfo where
  time : Int
  ndl : Int
  depth : Int
  deriving DecidableEq, Repr, Inhabited

/-- The static member `FastDiveInfo::fromSample`. -/
def FastDiveInfo.fromSample (samp : sample) : FastDiveInfo :=
  { time := samp.time, ndl := samp.ndl, depth := samp.depth }

/-- The fields of `struct divecomputer` that `createDivePlanFromComputer`
reads: the count `samples` and the array `sample`. -/
structure divecomputer where
  samples : Int
  sample : Nat → sample

/-- Modelled from the spec: `enum divemode_t` is declared in a header that is
not part of the sources; the spec names the dive-mode flag of a segment
"open-circuit, closed-circuit, etc.". -/
inductive divemode_t where
  | OC
  | CCR
  | PSCR
  | FREEDIVE
  deriving DecidableEq, Repr, Inhabited

/-- Modelled from the spec: one leg of the plan, the spec's PlanSegment
"{duration, target_depth, cylinder_index, surface_pressure_of_o2, entered_flag,
dive_mode}"; the struct itself is declared in `core/planner.h`, which is not
part of the sources. -/
structure divedatapoint where
  time : Int
  depth : Int
  cylinderid : Int
  setpoint : Int
  entered : Bool
  divemode : divemode_t
  deriving DecidableEq, Repr, Inhabited

/-- Modelled from the spec: `struct diveplan`, the "ordered list of legs" of
the spec, consumed strictly in sequence. -/
structure diveplan where
  dp : List divedatapoint
  deriving DecidableEq, Repr, Inhabited

/-- Modelled from the spec: `plan_add_segment` is declared in
`core/planner.h` and defined outside the sources; it puts one more leg, built
from its arguments, at the end of the ordered segment sequence. -/
def plan_add_segment (pl : diveplan) (duration depth cylinderid po2 : Int)
    (entered : Bool) (divemode : divemode_t) : diveplan :=
  { dp := pl.dp ++
      [{ time := duration, depth := depth, cylinderid := cylinderid, setpoint := po2,
         entered := entered, divemode := divemode }] }

/-- The body of the `for` loop of `createDivePlanFromComputer`, run `n` more
times from loop counter `i`, with the vector `fastDiveInfoVec` and the plan
built so far. -/
def createDivePlanLoop (dc : divecomputer) :
    Nat → Nat → List FastDiveInfo → diveplan → diveplan
  | 0, _, _, divePlan => divePlan
  | n + 1, i, fastDiveInfoVec, divePlan =>
    let samp := dc.sample i
    let vec := fastDiveInfoVec ++ [FastDiveInfo.fromSample samp]
    if i = 0 then createDivePlanLoop dc n (i + 1) vec divePlan
    else
      let curr := vec.getD i default
      let last := vec.getD (i - 1) default
      createDivePlanLoop dc n (i + 1) vec
        (plan_add_segment divePlan (sub32 curr.time last.time) last.depth 0 0 true
          divemode_t.OC)

/-- The method `CustomDivePlan::createDivePlanFromComputer`.  The call
`fastDiveInfoVec.reserve (dc.samples)` takes its count as an unsigned size: a
negative `dc.samples` becomes a count beyond `max_size ()`, `reserve` throws
`std::length_error` and the method returns no plan (`none`).  Otherwise the
loop runs for `i = 0, ..., dc.samples - 2` (for `0 ≤ dc.samples` the bound
`dc.samples - 1` cannot overflow), starting from an empty vector and a new
plan. -/
def createDivePlanFromComputer (dc : divecomputer) : Option diveplan :=
  if dc.samples < 0 then none
  else some (createDivePlanLoop dc (dc.samples - 1).toNat 0 [] { dp := [] })

/-- A stop of the decompression table (`struct decostop`). -/
structure decostop where
  depth : Int
  time : Int
  deriving DecidableEq, Repr, Inhabited

/-- What a call of the external function `plan` leaves behind: its boolean
return value and the objects it was handed by pointer. -/
structure plan_outcome (deco_state dive_t : Type) where
  ok : Bool
  ds : deco_state
  diveplan : diveplan
  dive : dive_t
  decostoptable : List decostop
  cached_datap : Option deco_state

/-- The type of the external function `plan` (declared `extern` in
`CustomDivePlan.cpp`):
`plan(ds, diveplan, dive, timestep, decostoptable, cached_datap, is_planner, show_disclaimer)`. -/
abbrev plan_fn (deco_state dive_t : Type) : Type :=
  deco_state → diveplan → dive_t → Int → List decostop → Option deco_state → Bool → Bool →
    plan_outcome deco_state dive_t

/-- The method `CustomDivePlan::planDeco`.  It is declared `void`: what its
caller can observe afterwards are the two objects it passed by pointer.  The
locals `stopTable` and `decoState` start with indeterminate contents, taken
here as arguments; `cache` starts as `NULL`. -/
def planDeco {deco_state dive_t : Type} (plan : plan_fn deco_state dive_t)
    (stopTable : List decostop) (decoState : deco_state)
    (divePlan : diveplan) (dive : dive_t) : diveplan × dive_t :=
  let r := plan decoState divePlan dive 60 stopTable none true false
  (r.diveplan, r.dive)

/-- The leg that iteration `i` of the loop of `createDivePlanFromComputer`
hands to `plan_add_segment` (a name for stating results, not a source
function). -/
def segmentOf (dc : divecomputer) (i : Nat) : divedatapoint :=
  { time := sub32 (dc.sample i).time (dc.sample (i - 1)).time,
    depth := (dc.sample (i - 1)).depth,
    cylinderid := 0, setpoint := 0, entered := true, divemode := divemode_t.OC }

/-- A dive computer whose `sample` array holds the given samples and whose
`samples` count is their number. -/
def divecomputer.ofList (l : List Subsurface.sample) : divecomputer :=
  { samples := l.length, sample := fun i => l.getD i default }

/-- A plan has no two adjacent legs with the same depth and the same
cylinder. -/
def noAdjacentRepeat : List divedatapoint → Bool
  | a :: b :: l =>
    !(a.depth == b.depth && a.cylinderid == b.cylinderid) && noAdjacentRepeat (b :: l)
  | _ => true

/-- Six samples, ten seconds apart; samples 1 to 4 form a run at the unchanged
depth of 18 m. -/
def dcRun : divecomputer :=
  divecomputer.ofList
    [⟨0, 0, 0⟩, ⟨10, 0, 18000⟩, ⟨20, 0, 18000⟩, ⟨30, 0, 18000⟩, ⟨40, 0, 18000⟩, ⟨50, 0, 0⟩]

/-- Three samples of a descent: surface, 5 m after 30 s, 9 m after 60 s. -/
def dcDescent : divecomputer :=
  divecomputer.ofList [⟨0, 0, 0⟩, ⟨30, 0, 5000⟩, ⟨60, 0, 9000⟩]

/-- A `plan` that fails (returns `false`) and leaves every object as it was. -/
def plan_failing : plan_fn Unit Unit :=
  fun ds diveplan dive _ decostoptable cached_datap _ _ =>
    { ok := false, ds := ds, diveplan := diveplan, dive := dive,
      decostoptable := decostoptable, cached_datap := cached_datap }

/-- A `plan` that succeeds (returns `true`) and leaves every object as it was. -/
def plan_succeeding : plan_fn Unit Unit :=
  fun ds diveplan dive _ decostoptable cached_datap _ _ =>
    { ok := true, ds := ds, diveplan := diveplan, dive := dive,
      decostoptable := decostoptable, cached_datap := cached_datap }

/-! ## Dive sites (`core/divesite.h`) -/

/-- The scalar fields of `struct dive_site`; `location` and `taxonomy` have
types declared in headers outside the sources and play no part in iteration. -/
structure dive_site where
  uuid : Nat
  name : String
  description : String
  notes : String
  deriving DecidableEq, Repr, Inhabited

/-- The type `struct dive_site_table`: the count `nr`, the capacity `allocated`
and the pointer array `dive_sites`, whose entries may be null. -/
structure dive_site_table where
  nr : Int
  allocated : Int
  dive_sites : Int → Option dive_site

/-- The inline function `get_dive_site`. -/
def get_dive_site (nr : Int) (ds_table : dive_site_table) : Option dive_site :=
  if nr ≥ ds_table.nr ∨ nr < 0 then none
  else ds_table.dive_sites nr

/-- The `for` statement that the macro `for_each_dive_site(_i, _x, _ds_table)`
expands to, entered with loop counter `_i` and the state `s` of the
surrounding code.  `body _i _x` is the statement under the macro; it neither
assigns `_i`, `_x` or the table nor leaves the loop early.  The result is the
final `_i`, the final `_x` and the final state. -/
def for_each_dive_site_from {σ : Type} (ds_table : dive_site_table)
    (body : Int → dive_site → σ → σ) (_i : Int) (s : σ) : Int × Option dive_site × σ :=
  match h : get_dive_site _i ds_table with
  | none => (_i, none, s)
  | some _x => for_each_dive_site_from ds_table body (_i + 1) (body _i _x s)
termination_by (ds_table.nr - _i).toNat
decreasing_by
  have hlt : _i < ds_table.nr := by
    unfold get_dive_site at h
    split at h
    · exact absurd h (by simp)
    · omega
  omega

/-- The macro `for_each_dive_site`: the loop above, started with `_i = 0`. -/
def for_each_dive_site {σ : Type} (ds_table : dive_site_table)
    (body : Int → dive_site → σ → σ) (s : σ) : Int × Option dive_site × σ :=
  for_each_dive_site_from ds_table body 0 s

/-- The pairs (index, site stored at that index) for the indices
`0, 1, ..., nr - 1` in increasing order, null entries left out (a name for
stating results, not a source function). -/
def dive_site_visits (ds_table : dive_site_table) : List (Int × dive_site) :=
  (List.range ds_table.nr.toNat).filterMap
    (fun (k : Nat) => (ds_table.dive_sites (k : Int)).map (fun x => ((k : Int), x)))

/-- A table of two sites. -/
def twoSites : dive_site_table :=
  { nr := 2, allocated := 4,
    dive_sites := fun i =>
      if i = 0 then some { uuid := 11, name := "Blue Hole", description := "", notes := "" }
      else if i = 1 then some { uuid := 22, name := "Wreck", description := "", notes := "" }
      else none }



/-! ## Plot analysis (`profile.c`) -/

/-- The type `struct plot_data`.  The pointers `min[k]`, `max[k]` point into
the array `entry[]` and are held as the index of their target (`none` while
still null). -/
structure plot_data where
  sec : Int
  pressure : Int
  temperature : Int
  val : Int
  smoothed : Int
  min : Fin 3 → Option Nat
  max : Fin 3 → Option Nat
  avg : Fin 3 → Int

/-- The type `struct plot_info`, with its flexible array member `entry[]`. -/
structure plot_info where
  nr : Int
  maxtime : Int
  maxdepth : Int
  minpressure : Int
  maxpressure : Int
  mintemp : Int
  maxtemp : Int
  entry : Nat → plot_data

/-- First loop of `analyze_plot_info_minmax_minute` ("go back 'seconds' in
time"), entered with the pointer `p`; the result is `p` after the loop. -/
def minmax_go_back (entry : Nat → plot_data) (first : Nat) (time seconds : Int) : Nat → Nat
  | 0 => 0
  | p + 1 =>
    if p + 1 > first then
      if (entry p).sec < sub32 time seconds then p + 1
      else minmax_go_back entry first time seconds p
    else p + 1

/-- The locals `min`, `max`, `avg`, `nr` of `analyze_plot_info_minmax_minute`. -/
structure minmax_acc where
  min : Nat
  max : Nat
  avg : Int
  nr : Int
  deriving DecidableEq, Repr, Inhabited

/-- Second loop of `analyze_plot_info_minmax_minute` ("go forward until we hit
an entry past the time"), `while (++p < last)`, entered with the pointer `p`
and the locals `acc`.  `fuel` bounds the number of loop tests; `last - p` of
them always suffice (`minmax_go_forward_fuel`). -/
def minmax_go_forward (entry : Nat → plot_data) (last : Nat) (time seconds : Int) :
    Nat → Nat → minmax_acc → minmax_acc
  | 0, _, acc => acc
  | fuel + 1, p, acc =>
    let p := p + 1
    if p < last then
      let val := (entry p).val
      if (entry p).sec > add32 time seconds then acc
      else
        let avg := add32 acc.avg val
        let nr := add32 acc.nr 1
        let min := if val < (entry acc.min).val then p else acc.min
        let max := if val > (entry acc.max).val then p else acc.max
        minmax_go_forward entry last time seconds fuel p
          { min := min, max := max, avg := avg, nr := nr }
    else acc

/-- The locals of `analyze_plot_info_minmax_minute` after its two loops, for
the entry at index `e` of the array and the window index `index`. -/
def minmax_minute_acc (entry : Nat → plot_data) (e first last : Nat) (index : Fin 3) :
    minmax_acc :=
  let time := (entry e).sec
  let seconds : Int := 90 * ((index.val : Int) + 1)
  let p := minmax_go_back entry first time seconds e
  minmax_go_forward entry last time seconds (last - p) p
    { min := p, max := p, avg := (entry p).val, nr := 1 }

/-- The function `analyze_plot_info_minmax_minute`: the array after the three
stores `entry->min[index]`, `entry->max[index]`, `entry->avg[index]`.  The
pointers `entry`, `first`, `last` are the indices `e`, `first`, `last`;
`index` ranges over the three elements of the arrays `min`, `max`, `avg`. -/
def analyze_plot_info_minmax_minute (entry : Nat → plot_data) (e first last : Nat)
    (index : Fin 3) : Nat → plot_data :=
  let acc := minmax_minute_acc entry e first last index
  Function.update entry e
    { entry e with
      min := Function.update (entry e).min index (some acc.min),
      max := Function.update (entry e).max index (some acc.max),
      avg := Function.update (entry e).avg index
        (Int.tdiv (add32 acc.avg (Int.tdiv acc.nr 2)) acc.nr) }

/-- The function `analyze_plot_info_minmax`. -/
def analyze_plot_info_minmax (entry : Nat → plot_data) (e first last : Nat) : Nat → plot_data :=
  let entry := analyze_plot_info_minmax_minute entry e first last 0
  let entry := analyze_plot_info_minmax_minute entry e first last 1
  analyze_plot_info_minmax_minute entry e first last 2

/-- The smoothing loop of `analyze_plot_info`, run `n` more times from loop
counter `i` (the loop is entered with `i = 2`, so `i - 2` is an index). -/
def smooth_loop : Nat → Nat → (Nat → plot_data) → (Nat → plot_data)
  | 0, _, entry => entry
  | n + 1, i, entry =>
    let val := add32 (add32 (add32 (add32 (entry (i - 2)).val (mul32 2 (entry (i - 1)).val))
      (mul32 3 (entry i).val)) (mul32 2 (entry (i + 1)).val)) (entry (i + 2)).val
    smooth_loop n (i + 1)
      (Function.update entry i { entry i with smoothed := Int.tdiv (add32 val 4) 9 })

/-- The min/max loop of `analyze_plot_info`, run `n` more times from loop
counter `i`, over the array of `nr` entries. -/
def minmax_loop (nr : Nat) : Nat → Nat → (Nat → plot_data) → (Nat → plot_data)
  | 0, _, entry => entry
  | n + 1, i, entry => minmax_loop nr n (i + 1) (analyze_plot_info_minmax entry i 0 nr)

/-- The function `analyze_plot_info`: the smoothing loop runs for
`i = 2, ..., nr - 3`, the min/max loop for `i = 0, ..., nr - 1`. -/
def analyze_plot_info (pi : plot_info) : plot_info :=
  let nr := pi.nr
  let entry := smooth_loop (nr - 4).toNat 2 pi.entry
  let entry := minmax_loop nr.toNat nr.toNat 0 entry
  { pi with entry := entry }

/-- A plot entry with the given time and depth and every other field zero or
null. -/
def plot_data.at (sec val : Int) : plot_data :=
  { sec := sec, pressure := 0, temperature := 0, val := val, smoothed := 0,
    min := fun _ => none, max := fun _ => none, avg := fun _ => 0 }

/-- A plot of the given entries (every entry past them is zero). -/
def plot_info.ofList (l : List plot_data) : plot_info :=
  { nr := l.length, maxtime := 0, maxdepth := 0, minpressure := 0, maxpressure := 0,
    mintemp := 0, maxtemp := 0, entry := fun i => l.getD i (plot_data.at 0 0) }





/-- The value that the smoothing loop of `analyze_plot_info` stores in
`entry[i].smoothed`, from the depths of the array `entry` (a name for stating
results). -/
def smooth_stored (entry : Nat → plot_data) (i : Nat) : Int :=
  Int.tdiv
    (add32 (add32 (add32 (add32 (add32 (entry (i - 2)).val (mul32 2 (entry (i - 1)).val))
      (mul32 3 (entry i).val)) (mul32 2 (entry (i + 1)).val)) (entry (i + 2)).val) 4) 9

/-- The weighted sum `S = val[i-2] + 2*val[i-1] + 3*val[i] + 2*val[i+1] + val[i+2]`
of the five depths around entry `i`, as an exact integer (a name for stating
results). -/
def smooth_sum (entry : Nat → plot_data) (i : Nat) : Int :=
  (entry (i - 2)).val + 2 * (entry (i - 1)).val + 3 * (entry i).val
    + 2 * (entry (i + 1)).val + (entry (i + 2)).val

/-- Three entries at 0 s, 90 s and 200 s. -/
def plotThree : plot_info :=
  plot_info.ofList [plot_data.at 0 5000, plot_data.at 90 1000, plot_data.at 200 7000]

/-- Two entries 90 s apart, the later one shallower. -/
def plotNinety : plot_info :=
  plot_info.ofList [plot_data.at 0 5000, plot_data.at 90 1000]

/-- Five entries ten seconds apart. -/
def plotFive : plot_info :=
  plot_info.ofList [plot_data.at 0 0, plot_data.at 10 1200, plot_data.at 20 3100,
    plot_data.at 30 2900, plot_data.at 40 0]





/-- Three samples whose first two times are `-2` and `2^31 - 1`. -/
def dcWrap : divecomputer :=
  divecomputer.ofList [⟨-2, 0, 1000⟩, ⟨2147483647, 0, 2000⟩, ⟨0, 0, 0⟩]

/-- Three entries ten seconds apart, less than 90 s before the end of the
32-bit range. -/
def plotLate : plot_info :=
  plot_info.ofList [plot_data.at 2147483600 5, plot_data.at 2147483610 3,
    plot_data.at 2147483620 9]

/-- Five entries at a depth of 300000000 mm. -/
def plotDeep : plot_info :=
  plot_info.ofList [plot_data.at 0 300000000, plot_data.at 10 300000000,
    plot_data.at 20 300000000, plot_data.at 30 300000000, plot_data.at 40 300000000]

/-! ## Theorems -/

theorem fastDiveInfoVec_getD (dc : divecomputer) (i j : Nat) (hj : j ≤ i) :
    (((List.range i).map (fun k => FastDiveInfo.fromSample (dc.sample k))) ++
        [FastDiveInfo.fromSample (dc.sample i)]).getD j default
      = FastDiveInfo.fromSample (dc.sample j) := by
  have h : ((List.range i).map (fun k => FastDiveInfo.fromSample (dc.sample k))) ++
        [FastDiveInfo.fromSample (dc.sample i)]
      = (List.range (i + 1)).map (fun k => FastDiveInfo.fromSample (dc.sample k)) := by
    rw [List.range_succ, List.map_append]; rfl
  rw [h, List.getD_eq_getElem?_getD, List.getElem?_map, List.getElem?_range (by omega)]
  rfl

theorem createDivePlanLoop_dp (dc : divecomputer) (n : Nat) :
    ∀ (i : Nat) (pl : diveplan), 0 < i →
      (createDivePlanLoop dc n i
          ((List.range i).map (fun k => FastDiveInfo.fromSample (dc.sample k))) pl).dp
        = pl.dp ++ (List.range' i n).map (segmentOf dc) := by
  induction n with
  | zero => intro i pl _; simp [createDivePlanLoop]
  | succ n ih =>
    intro i pl hi
    have hne : i ≠ 0 := by omega
    have hvec : ((List.range i).map (fun k => FastDiveInfo.fromSample (dc.sample k))) ++
        [FastDiveInfo.fromSample (dc.sample i)]
      = (List.range (i + 1)).map (fun k => FastDiveInfo.fromSample (dc.sample k)) := by
      rw [List.range_succ, List.map_append]; rfl
    have hc := fastDiveInfoVec_getD dc i i (le_refl i)
    have hl := fastDiveInfoVec_getD dc i (i - 1) (by omega)
    simp only [createDivePlanLoop, if_neg hne, hc, hl]
    rw [hvec, ih (i + 1) _ (by omega)]
    simp [plan_add_segment, segmentOf, FastDiveInfo.fromSample, List.range'_succ]

theorem wrap32_of_fits (x : Int) (h0 : -2147483648 ≤ x) (h1 : x ≤ 2147483647) :
    wrap32 x = x := by
  unfold wrap32
  omega

theorem createDivePlanFromComputer_dp (dc : divecomputer) (h0 : 0 ≤ dc.samples) :
    createDivePlanFromComputer dc
      = some { dp := (List.range' 1 (dc.samples - 2).toNat).map (segmentOf dc) } := by
  unfold createDivePlanFromComputer
  rw [if_neg (by omega)]
  congr 1
  have hdp : ∀ a b : diveplan, a.dp = b.dp → a = b := by
    intro a b h
    cases a; cases b; cases h; rfl
  apply hdp
  rcases hn : (dc.samples - 1).toNat with _ | n
  · have : (dc.samples - 2).toNat = 0 := by omega
    simp [createDivePlanLoop, this]
  · have h2 : (dc.samples - 2).toNat = n := by omega
    have h := createDivePlanLoop_dp dc n 1 { dp := [] } (by omega)
    simp only [createDivePlanLoop, if_true, List.nil_append, h2]
    simpa using h

theorem createDivePlanFromComputer_throws (dc : divecomputer) (h : dc.samples < 0) :
    createDivePlanFromComputer dc = none := by
  unfold createDivePlanFromComputer
  rw [if_pos h]

/-! ### `createDivePlanFromComputer` -/

/-- C1, as stated, fails: in `dcRun` the samples 1 to 4 stay at 18 m, and the
plan built from it has three consecutive legs at 18 m on cylinder 0 (one per
pair of samples), so it does contain adjacent legs of equal depth and
cylinder that come from one run of unchanged depth. -/
theorem createDivePlanFromComputer_run_not_collapsed :
    (∀ i, 1 ≤ i → i ≤ 4 → (dcRun.sample i).depth = 18000) ∧
    (createDivePlanFromComputer dcRun).map
        (fun pl => pl.dp.map (fun s => (s.depth, s.cylinderid)))
      = some [(0, 0), (18000, 0), (18000, 0), (18000, 0)] ∧
    (createDivePlanFromComputer dcRun).map (fun pl => noAdjacentRepeat pl.dp) = some false := by
  refine ⟨?_, by decide, by decide⟩
  intro i h1 h4
  interval_cases i <;> rfl

/-- C1, amended: `createDivePlanFromComputer` merges nothing.  For
`0 ≤ samples` it returns a plan whose number of legs is fixed by the number of
samples alone (`samples - 2`, or none), every leg is on cylinder 0, and two
adjacent legs `j`, `j + 1` have the same depth and cylinder exactly when the
samples `j` and `j + 1` have the same depth. -/
theorem createDivePlanFromComputer_one_leg_per_pair (dc : divecomputer)
    (h0 : 0 ≤ dc.samples) :
    ∃ pl, createDivePlanFromComputer dc = some pl ∧
      pl.dp.length = (dc.samples - 2).toNat ∧
      (∀ s ∈ pl.dp, s.cylinderid = 0) ∧
      (∀ j, j + 1 < (dc.samples - 2).toNat →
        (((pl.dp.getD j default).depth = (pl.dp.getD (j + 1) default).depth ∧
          (pl.dp.getD j default).cylinderid = (pl.dp.getD (j + 1) default).cylinderid)
          ↔ (dc.sample j).depth = (dc.sample (j + 1)).depth)) := by
  refine ⟨_, createDivePlanFromComputer_dp dc h0, by simp, ?_, ?_⟩
  · intro s hs
    simp only [List.mem_map] at hs
    obtain ⟨i, _, rfl⟩ := hs
    rfl
  · intro j hj
    have e0 : ((List.range' 1 (dc.samples - 2).toNat).map (segmentOf dc)).getD j default
        = segmentOf dc (j + 1) := by
      rw [List.getD_eq_getElem?_getD, List.getElem?_map, List.getElem?_range' _ _ (by omega)]
      have : 1 + 1 * j = j + 1 := by omega
      rw [this]; rfl
    have e1 : ((List.range' 1 (dc.samples - 2).toNat).map (segmentOf dc)).getD (j + 1) default
        = segmentOf dc (j + 2) := by
      rw [List.getD_eq_getElem?_getD, List.getElem?_map, List.getElem?_range' _ _ (by omega)]
      have : 1 + 1 * (j + 1) = j + 2 := by omega
      rw [this]; rfl
    rw [e0, e1]
    simp [segmentOf]

/-- Witness of `createDivePlanFromComputer_one_leg_per_pair` on `dcRun`, which
has six samples. -/
theorem createDivePlanFromComputer_one_leg_per_pair_witness :
    0 ≤ dcRun.samples ∧
    ∃ pl, createDivePlanFromComputer dcRun = some pl ∧
      pl.dp.length = (dcRun.samples - 2).toNat ∧
      (∀ s ∈ pl.dp, s.cylinderid = 0) ∧
      (∀ j, j + 1 < (dcRun.samples - 2).toNat →
        (((pl.dp.getD j default).depth = (pl.dp.getD (j + 1) default).depth ∧
          (pl.dp.getD j default).cylinderid = (pl.dp.getD (j + 1) default).cylinderid)
          ↔ (dcRun.sample j).depth = (dcRun.sample (j + 1)).depth)) :=
  ⟨by decide, createDivePlanFromComputer_one_leg_per_pair dcRun (by decide)⟩

/-- C2, as stated, fails: `dcDescent` has three samples, and for the interval
from sample 0 to sample 1 (30 s, ending at 5 m) the plan holds no leg with that
duration and the depth of sample 1: its only leg has depth 0, the depth of
sample 0. -/
theorem createDivePlanFromComputer_depth_is_not_interval_end :
    3 ≤ dcDescent.samples ∧
    createDivePlanFromComputer dcDescent
      = some { dp := [{ time := 30, depth := 0, cylinderid := 0, setpoint := 0,
                        entered := true, divemode := divemode_t.OC }] } ∧
    ¬ ∃ pl, createDivePlanFromComputer dcDescent = some pl ∧
        ∃ s ∈ pl.dp,
          s.time = (dcDescent.sample 1).time - (dcDescent.sample 0).time ∧
          s.depth = (dcDescent.sample 1).depth := by
  have h : createDivePlanFromComputer dcDescent
      = some { dp := [{ time := 30, depth := 0, cylinderid := 0, setpoint := 0,
                        entered := true, divemode := divemode_t.OC }] } := by decide
  refine ⟨by decide, h, ?_⟩
  rintro ⟨pl, hpl, s, hs, _, hd⟩
  rw [h] at hpl
  cases hpl
  simp only [List.mem_singleton] at hs
  subst hs
  exact absurd hd (by decide)

/-- C2, amended: the legs are added in sample order; for `1 ≤ i ≤ samples - 2`
and times of the samples `i - 1` and `i` between 0 and `2^31 - 1`, the leg for
the interval from sample `i - 1` to sample `i` is leg number `i - 1` of the
plan, and it has duration `time[i] - time[i-1]` and depth `depth[i-1]`, the
depth at the start of that interval (cylinder 0, po2 0, entered, open
circuit). -/
theorem createDivePlanFromComputer_leg (dc : divecomputer) (i : Nat)
    (h1 : 1 ≤ i) (h2 : (i : Int) ≤ dc.samples - 2)
    (ht0 : 0 ≤ (dc.sample (i - 1)).time ∧ (dc.sample (i - 1)).time ≤ 2147483647)
    (ht1 : 0 ≤ (dc.sample i).time ∧ (dc.sample i).time ≤ 2147483647) :
    ∃ pl, createDivePlanFromComputer dc = some pl ∧
      pl.dp[i - 1]?
        = some { time := (dc.sample i).time - (dc.sample (i - 1)).time,
                 depth := (dc.sample (i - 1)).depth,
                 cylinderid := 0, setpoint := 0, entered := true,
                 divemode := divemode_t.OC } := by
  refine ⟨_, createDivePlanFromComputer_dp dc (by omega), ?_⟩
  rw [List.getElem?_map, List.getElem?_range' _ _ (by omega)]
  have : 1 + 1 * (i - 1) = i := by omega
  rw [this]
  have hw : sub32 (dc.sample i).time (dc.sample (i - 1)).time
      = (dc.sample i).time - (dc.sample (i - 1)).time :=
    wrap32_of_fits _ (by omega) (by omega)
  simp [segmentOf, hw]

/-- Witness of `createDivePlanFromComputer_leg` on `dcDescent`, interval 1:
sample 0 is at the surface, sample 1 at 5 m, and the leg has depth 0. -/
theorem createDivePlanFromComputer_leg_witness :
    (dcDescent.sample (1 - 1)).depth ≠ (dcDescent.sample 1).depth ∧
    ∃ pl, createDivePlanFromComputer dcDescent = some pl ∧
      pl.dp[1 - 1]?
        = some { time := (dcDescent.sample 1).time - (dcDescent.sample (1 - 1)).time,
                 depth := (dcDescent.sample (1 - 1)).depth,
                 cylinderid := 0, setpoint := 0, entered := true,
                 divemode := divemode_t.OC } :=
  ⟨by decide,
    createDivePlanFromComputer_leg dcDescent 1 (by decide) (by decide) (by decide) (by decide)⟩

/-! ### `planDeco` -/

/-- C3, as stated, fails: nothing that the caller of `planDeco` gets back tells
a failed `plan` from a successful one.  `plan_failing` returns `false`,
`plan_succeeding` returns `true`, and `planDeco` hands its caller the same
result for both, so no function of that result reports the failure. -/
theorem planDeco_hides_failure :
    (∀ ds dp dv t st c p d, (plan_failing ds dp dv t st c p d).ok = false) ∧
    (∀ ds dp dv t st c p d, (plan_succeeding ds dp dv t st c p d).ok = true) ∧
    (∀ st ds dp dv, planDeco plan_failing st ds dp dv = planDeco plan_succeeding st ds dp dv) ∧
    ¬ ∃ report : diveplan × Unit → Bool,
        ∀ (plan : plan_fn Unit Unit) st ds dp dv,
          report (planDeco plan st ds dp dv) = (plan ds dp dv 60 st none true false).ok := by
  refine ⟨fun _ _ _ _ _ _ _ _ => rfl, fun _ _ _ _ _ _ _ _ => rfl, fun _ _ _ _ => rfl, ?_⟩
  rintro ⟨report, h⟩
  have hf := h plan_failing [] () { dp := [] } ()
  have hs := h plan_succeeding [] () { dp := [] } ()
  have e : planDeco plan_failing [] () { dp := [] } ()
      = planDeco plan_succeeding [] () { dp := [] } () := rfl
  rw [e, hs] at hf
  exact absurd hf (by decide)

/-- C3, amended: `planDeco` calls `plan` once, with time step 60, its local
stop table, a null cache, `is_planner = true` and `show_disclaimer = false`,
and drops the boolean that `plan` returns: replacing that boolean by any other
value `b` leaves what `planDeco` gives back to its caller unchanged. -/
theorem planDeco_discards_plan_result {deco_state dive_t : Type}
    (plan : plan_fn deco_state dive_t) (stopTable : List decostop) (decoState : deco_state)
    (divePlan : diveplan) (dive : dive_t) (b : Bool) :
    planDeco plan stopTable decoState divePlan dive
      = ((plan decoState divePlan dive 60 stopTable none true false).diveplan,
         (plan decoState divePlan dive 60 stopTable none true false).dive) ∧
    planDeco (fun ds dp dv t st c p d => { plan ds dp dv t st c p d with ok := b })
        stopTable decoState divePlan dive
      = planDeco plan stopTable decoState divePlan dive :=
  ⟨rfl, rfl⟩

/-! ### `get_dive_site` and `for_each_dive_site` -/

theorem get_dive_site_in_range (t : dive_site_table) (i : Int) (h0 : 0 ≤ i) (h1 : i < t.nr) :
    get_dive_site i t = t.dive_sites i := by
  unfold get_dive_site
  rw [if_neg (by omega)]

theorem get_dive_site_out_of_range (t : dive_site_table) (i : Int) (h : i < 0 ∨ t.nr ≤ i) :
    get_dive_site i t = none := by
  unfold get_dive_site
  rw [if_pos (by omega)]

theorem for_each_dive_site_from_none {σ : Type} (t : dive_site_table)
    (body : Int → dive_site → σ → σ) (i : Int) (s : σ) (h : get_dive_site i t = none) :
    for_each_dive_site_from t body i s = (i, none, s) := by
  rw [for_each_dive_site_from]
  split
  · rfl
  · rename_i x hx; rw [h] at hx; exact absurd hx (by simp)

theorem for_each_dive_site_from_some {σ : Type} (t : dive_site_table)
    (body : Int → dive_site → σ → σ) (i : Int) (s : σ) (x : dive_site)
    (h : get_dive_site i t = some x) :
    for_each_dive_site_from t body i s = for_each_dive_site_from t body (i + 1) (body i x s) := by
  rw [for_each_dive_site_from]
  split
  · rename_i hx; rw [h] at hx; exact absurd hx (by simp)
  · rename_i y hy
    rw [h] at hy
    cases hy
    rfl

theorem for_each_dive_site_from_spec {σ : Type} (t : dive_site_table)
    (body : Int → dive_site → σ → σ)
    (hnn : ∀ i, 0 ≤ i → i < t.nr → t.dive_sites i ≠ none) (n : Nat) :
    ∀ (i : Int) (s : σ), 0 ≤ i → i + n = t.nr →
      for_each_dive_site_from t body i s
        = (t.nr, none,
            ((List.range' i.toNat n).filterMap
                (fun (k : Nat) => (t.dive_sites (k : Int)).map (fun x => ((k : Int), x)))).foldl
              (fun acc ix => body ix.1 ix.2 acc) s) := by
  induction n with
  | zero =>
    intro i s _ hi
    have : i = t.nr := by omega
    subst this
    rw [for_each_dive_site_from_none t body _ s (get_dive_site_out_of_range t _ (by omega))]
    simp
  | succ n ih =>
    intro i s h0 hi
    have hlt : i < t.nr := by omega
    obtain ⟨x, hx⟩ := Option.ne_none_iff_exists'.mp (hnn i h0 hlt)
    have hg : get_dive_site i t = some x := by rw [get_dive_site_in_range t i h0 hlt, hx]
    have hcast : ((i.toNat : Nat) : Int) = i := Int.toNat_of_nonneg h0
    have hsucc : (i + 1).toNat = i.toNat + 1 := by omega
    rw [for_each_dive_site_from_some t body i s x hg, ih (i + 1) _ (by omega) (by omega), hsucc,
      List.range'_succ]
    simp [List.filterMap_cons, hcast, hx]

theorem for_each_dive_site_from_congr {σ : Type} (t u : dive_site_table)
    (body : Int → dive_site → σ → σ) (hnr : u.nr = t.nr)
    (hag : ∀ i, 0 ≤ i → i < t.nr → u.dive_sites i = t.dive_sites i) (n : Nat) :
    ∀ (i : Int) (s : σ), (t.nr - i).toNat = n →
      for_each_dive_site_from u body i s = for_each_dive_site_from t body i s := by
  have hget : ∀ i, get_dive_site i u = get_dive_site i t := by
    intro i
    unfold get_dive_site
    rw [hnr]
    split
    · rfl
    · exact hag i (by omega) (by omega)
  induction n using Nat.strong_induction_on with
  | _ n ih =>
    intro i s hn
    rcases hx : get_dive_site i t with _ | x
    · rw [for_each_dive_site_from_none t body i s hx,
        for_each_dive_site_from_none u body i s (by rw [hget, hx])]
    · have hlt : i < t.nr := by
        unfold get_dive_site at hx
        split at hx
        · exact absurd hx (by simp)
        · omega
      rw [for_each_dive_site_from_some t body i s x hx,
        for_each_dive_site_from_some u body i s x (by rw [hget, hx])]
      exact ih (t.nr - (i + 1)).toNat (by omega) (i + 1) _ rfl

/-- C4: for a table with `nr ≥ 0` whose first `nr` entries are non-null,
`get_dive_site i` is null exactly for `i < 0` or `i ≥ nr` and is the `i`-th
entry otherwise; `for_each_dive_site` runs its body once for each index
`0, ..., nr - 1` in increasing order with `_x` the site stored there, and stops
with `_i = nr` and `_x = NULL`; and no entry outside `0 .. nr - 1` is read: a
table that agrees on `nr` and on those entries gives the same results. -/
theorem for_each_dive_site_iterates (t : dive_site_table) (h0 : 0 ≤ t.nr)
    (hnn : ∀ i, 0 ≤ i → i < t.nr → t.dive_sites i ≠ none) :
    (∀ i, get_dive_site i t = none ↔ (i < 0 ∨ i ≥ t.nr)) ∧
    (∀ i, 0 ≤ i → i < t.nr → get_dive_site i t = t.dive_sites i) ∧
    (dive_site_visits t).map Prod.fst = (List.range t.nr.toNat).map (fun (k : Nat) => (k : Int)) ∧
    (∀ ix ∈ dive_site_visits t, t.dive_sites ix.1 = some ix.2) ∧
    (∀ (σ : Type) (body : Int → dive_site → σ → σ) (s : σ),
      for_each_dive_site t body s
        = (t.nr, none, (dive_site_visits t).foldl (fun acc ix => body ix.1 ix.2 acc) s)) ∧
    (∀ u : dive_site_table, u.nr = t.nr →
      (∀ i, 0 ≤ i → i < t.nr → u.dive_sites i = t.dive_sites i) →
      (∀ i, get_dive_site i u = get_dive_site i t) ∧
      (∀ (σ : Type) (body : Int → dive_site → σ → σ) (s : σ),
        for_each_dive_site u body s = for_each_dive_site t body s)) := by
  refine ⟨?_, ?_, ?_, ?_, ?_, ?_⟩
  · intro i
    constructor
    · intro h
      by_contra hc
      have hi0 : 0 ≤ i := by omega
      have hi1 : i < t.nr := by omega
      rw [get_dive_site_in_range t i hi0 hi1] at h
      exact hnn i hi0 hi1 h
    · intro h
      exact get_dive_site_out_of_range t i (by omega)
  · intro i hi0 hi1
    exact get_dive_site_in_range t i hi0 hi1
  · unfold dive_site_visits
    have : ∀ l : List Nat, (∀ k ∈ l, k < t.nr.toNat) →
        (l.filterMap (fun (k : Nat) => (t.dive_sites (k : Int)).map (fun x => ((k : Int), x)))).map
            Prod.fst = l.map (fun (k : Nat) => (k : Int)) := by
      intro l
      induction l with
      | nil => intro _; rfl
      | cons a l ih =>
        intro hl
        have ha : a < t.nr.toNat := hl a (List.mem_cons_self a l)
        obtain ⟨x, hx⟩ := Option.ne_none_iff_exists'.mp (hnn (a : Int) (by omega) (by omega))
        have ih2 := ih (fun k hk => hl k (List.mem_cons_of_mem a hk))
        rw [List.filterMap_cons_some (by rw [hx]; rfl), List.map_cons, List.map_cons, ih2]
    exact this _ (fun k hk => List.mem_range.mp hk)
  · intro ix hix
    unfold dive_site_visits at hix
    rw [List.mem_filterMap] at hix
    obtain ⟨k, _, hk⟩ := hix
    rcases hd : t.dive_sites (k : Int) with _ | x
    · rw [hd] at hk; exact absurd hk (by simp)
    · rw [hd] at hk
      simp only [Option.map_some', Option.some.injEq] at hk
      rw [← hk]
      exact hd
  · intro σ body s
    have h := for_each_dive_site_from_spec t body hnn t.nr.toNat 0 s (le_refl 0) (by omega)
    unfold for_each_dive_site dive_site_visits
    rw [h, List.range_eq_range']
    rfl
  · intro u hnr hag
    refine ⟨?_, ?_⟩
    · intro i
      unfold get_dive_site
      rw [hnr]
      split
      · rfl
      · exact hag i (by omega) (by omega)
    · intro σ body s
      exact for_each_dive_site_from_congr t u body hnr hag _ 0 s rfl

/-- Witness of `for_each_dive_site_iterates` on the table `twoSites`. -/
theorem for_each_dive_site_iterates_witness :
    (∀ i, get_dive_site i twoSites = none ↔ (i < 0 ∨ i ≥ twoSites.nr)) ∧
    (∀ i, 0 ≤ i → i < twoSites.nr → get_dive_site i twoSites = twoSites.dive_sites i) ∧
    (dive_site_visits twoSites).map Prod.fst
      = (List.range twoSites.nr.toNat).map (fun (k : Nat) => (k : Int)) ∧
    (∀ ix ∈ dive_site_visits twoSites, twoSites.dive_sites ix.1 = some ix.2) ∧
    (∀ (σ : Type) (body : Int → dive_site → σ → σ) (s : σ),
      for_each_dive_site twoSites body s
        = (twoSites.nr, none,
            (dive_site_visits twoSites).foldl (fun acc ix => body ix.1 ix.2 acc) s)) ∧
    (∀ u : dive_site_table, u.nr = twoSites.nr →
      (∀ i, 0 ≤ i → i < twoSites.nr → u.dive_sites i = twoSites.dive_sites i) →
      (∀ i, get_dive_site i u = get_dive_site i twoSites) ∧
      (∀ (σ : Type) (body : Int → dive_site → σ → σ) (s : σ),
        for_each_dive_site u body s = for_each_dive_site twoSites body s)) :=
  for_each_dive_site_iterates twoSites (by decide) (by
    intro i h0 h1
    have h2 : i < 2 := h1
    have : i = 0 ∨ i = 1 := by omega
    rcases this with rfl | rfl <;> simp [twoSites])

/-! ### `analyze_plot_info_minmax_minute` -/

theorem minmax_go_back_spec (entry : Nat → plot_data) (first : Nat) (time seconds : Int) :
    ∀ e, first ≤ e →
      first ≤ minmax_go_back entry first time seconds e ∧
      minmax_go_back entry first time seconds e ≤ e ∧
      (∀ j, minmax_go_back entry first time seconds e ≤ j → j < e →
        sub32 time seconds ≤ (entry j).sec) ∧
      (first < minmax_go_back entry first time seconds e →
        (entry (minmax_go_back entry first time seconds e - 1)).sec < sub32 time seconds) := by
  intro e
  induction e with
  | zero =>
    intro h
    simp only [minmax_go_back]
    exact ⟨h, le_refl 0, fun j _ hj => absurd hj (by omega), fun hlt => absurd hlt (by omega)⟩
  | succ e ih =>
    intro h
    simp only [minmax_go_back]
    by_cases hgt : e + 1 > first
    · rw [if_pos hgt]
      by_cases hsec : (entry e).sec < sub32 time seconds
      · rw [if_pos hsec]
        exact ⟨h, le_refl _, fun j h1 h2 => absurd h2 (by omega), fun _ => by simpa using hsec⟩
      · rw [if_neg hsec]
        obtain ⟨a, b, c, d⟩ := ih (by omega)
        refine ⟨a, by omega, ?_, d⟩
        intro j h1 h2
        by_cases hje : j = e
        · subst hje; omega
        · exact c j h1 (by omega)
    · rw [if_neg hgt]
      exact ⟨h, le_refl _, fun j h1 h2 => absurd h2 (by omega), fun hlt => absurd hlt (by omega)⟩

theorem minmax_go_forward_spec (entry : Nat → plot_data) (last : Nat) (time seconds : Int)
    (p0 : Nat) :
    ∀ (fuel p : Nat) (acc : minmax_acc), last ≤ p + fuel → p < last →
      p0 ≤ acc.min → acc.min ≤ p → p0 ≤ acc.max → acc.max ≤ p →
      (∀ j, p0 ≤ j → j ≤ p →
        (entry acc.min).val ≤ (entry j).val ∧ (entry j).val ≤ (entry acc.max).val) →
      ∃ q, p ≤ q ∧ q < last ∧
        p0 ≤ (minmax_go_forward entry last time seconds fuel p acc).min ∧
        (minmax_go_forward entry last time seconds fuel p acc).min ≤ q ∧
        p0 ≤ (minmax_go_forward entry last time seconds fuel p acc).max ∧
        (minmax_go_forward entry last time seconds fuel p acc).max ≤ q ∧
        (∀ j, p0 ≤ j → j ≤ q →
          (entry (minmax_go_forward entry last time seconds fuel p acc).min).val ≤ (entry j).val ∧
          (entry j).val ≤ (entry (minmax_go_forward entry last time seconds fuel p acc).max).val) ∧
        (∀ j, p < j → j ≤ q → (entry j).sec ≤ add32 time seconds) ∧
        (q + 1 < last → add32 time seconds < (entry (q + 1)).sec) := by
  intro fuel
  induction fuel with
  | zero => intro p acc h1 h2; omega
  | succ fuel ih =>
    intro p acc hfuel hp hmin0 hmin1 hmax0 hmax1 hval
    simp only [minmax_go_forward]
    by_cases hlt : p + 1 < last
    · rw [if_pos hlt]
      by_cases hsec : (entry (p + 1)).sec > add32 time seconds
      · rw [if_pos hsec]
        exact ⟨p, le_refl _, hp, hmin0, hmin1, hmax0, hmax1, hval,
          fun j h1 h2 => absurd h2 (by omega), fun _ => hsec⟩
      · rw [if_neg hsec]
        have hstep := ih (p + 1)
          { min := if (entry (p + 1)).val < (entry acc.min).val then p + 1 else acc.min,
            max := if (entry (p + 1)).val > (entry acc.max).val then p + 1 else acc.max,
            avg := add32 acc.avg (entry (p + 1)).val, nr := add32 acc.nr 1 }
          (by omega) hlt
          (by dsimp only; split_ifs <;> omega) (by dsimp only; split_ifs <;> omega)
          (by dsimp only; split_ifs <;> omega) (by dsimp only; split_ifs <;> omega)
          (by
            intro j hj0 hj1
            dsimp only
            by_cases hj : j = p + 1
            · subst hj
              have := hval acc.min hmin0 hmin1
              constructor <;> split_ifs <;> omega
            · have hj2 := hval j hj0 (by omega)
              have := hval acc.min hmin0 hmin1
              constructor <;> split_ifs <;> omega)
        obtain ⟨q, hq1, hq2, a, b, c, d, e, f, g⟩ := hstep
        refine ⟨q, by omega, hq2, a, b, c, d, e, ?_, g⟩
        intro j hj0 hj1
        by_cases hj : j = p + 1
        · subst hj; omega
        · exact f j (by omega) hj1
    · rw [if_neg hlt]
      exact ⟨p, le_refl _, hp, hmin0, hmin1, hmax0, hmax1, hval,
        fun j h1 h2 => absurd h2 (by omega), fun h => absurd h hlt⟩

/-- Enough fuel: once `last - p` loop tests are allowed, allowing more does not
change the result of the forward loop. -/
theorem minmax_go_forward_fuel (entry : Nat → plot_data) (last : Nat) (time seconds : Int) :
    ∀ (fuel p : Nat) (acc : minmax_acc), last ≤ p + fuel →
      minmax_go_forward entry last time seconds (fuel + 1) p acc
        = minmax_go_forward entry last time seconds fuel p acc := by
  intro fuel
  induction fuel with
  | zero =>
    intro p acc h
    simp only [minmax_go_forward]
    rw [if_neg (by omega)]
  | succ fuel ih =>
    intro p acc h
    rw [minmax_go_forward]
    conv_rhs => rw [minmax_go_forward]
    by_cases hlt : p + 1 < last
    · simp only [if_pos hlt]
      by_cases hsec : (entry (p + 1)).sec > add32 time seconds
      · simp only [if_pos hsec]
      · simp only [if_neg hsec]
        exact ih (p + 1) _ (by omega)
    · simp only [if_neg hlt]

theorem minmax_minute_acc_spec (entry : Nat → plot_data) (e first last : Nat) (index : Fin 3)
    (hfe : first ≤ e) (hel : e < last)
    (hr0 : -2147483648 + 270 ≤ (entry e).sec) (hr1 : (entry e).sec ≤ 2147483647 - 270)
    (hs : ∀ i j, first ≤ i → i ≤ j → j < last → (entry i).sec ≤ (entry j).sec) :
    (first ≤ (minmax_minute_acc entry e first last index).min ∧
      (minmax_minute_acc entry e first last index).min < last ∧
      |(entry (minmax_minute_acc entry e first last index).min).sec - (entry e).sec|
        ≤ 90 * ((index.val : Int) + 1)) ∧
    (first ≤ (minmax_minute_acc entry e first last index).max ∧
      (minmax_minute_acc entry e first last index).max < last ∧
      |(entry (minmax_minute_acc entry e first last index).max).sec - (entry e).sec|
        ≤ 90 * ((index.val : Int) + 1)) ∧
    (∀ p, first ≤ p → p < last →
      |(entry p).sec - (entry e).sec| ≤ 90 * ((index.val : Int) + 1) →
      (entry (minmax_minute_acc entry e first last index).min).val ≤ (entry p).val ∧
      (entry p).val ≤ (entry (minmax_minute_acc entry e first last index).max).val) := by
  have hW : (0 : Int) ≤ 90 * ((index.val : Int) + 1) := by positivity
  have hW3 : 90 * ((index.val : Int) + 1) ≤ 270 := by
    have := index.isLt
    omega
  have hsub : sub32 (entry e).sec (90 * ((index.val : Int) + 1))
      = (entry e).sec - 90 * ((index.val : Int) + 1) :=
    wrap32_of_fits _ (by omega) (by omega)
  have hadd : add32 (entry e).sec (90 * ((index.val : Int) + 1))
      = (entry e).sec + 90 * ((index.val : Int) + 1) :=
    wrap32_of_fits _ (by omega) (by omega)
  obtain ⟨b1, b2, b3, b4⟩ :=
    minmax_go_back_spec entry first (entry e).sec (90 * ((index.val : Int) + 1)) e hfe
  rw [hsub] at b3 b4
  unfold minmax_minute_acc
  dsimp only
  generalize minmax_go_back entry first (entry e).sec (90 * ((index.val : Int) + 1)) e = p0
    at b1 b2 b3 b4 ⊢
  obtain ⟨q, f1, f2, f3, f4, f5, f6, f7, f8, f9⟩ :=
    minmax_go_forward_spec entry last (entry e).sec (90 * ((index.val : Int) + 1)) p0
      (last - p0) p0 { min := p0, max := p0, avg := (entry p0).val, nr := 1 }
      (by omega) (by omega) (le_refl _) (le_refl _) (le_refl _) (le_refl _)
      (by
        intro j h1 h2
        have : j = p0 := by omega
        subst this
        exact ⟨le_refl _, le_refl _⟩)
  rw [hadd] at f8 f9
  generalize minmax_go_forward entry last (entry e).sec (90 * ((index.val : Int) + 1))
    (last - p0) p0 { min := p0, max := p0, avg := (entry p0).val, nr := 1 } = r
    at f3 f4 f5 f6 f7 f8 f9 ⊢
  have heq : e ≤ q := by
    by_contra hc
    have h1 := f9 (by omega)
    have h2 := hs (q + 1) e (by omega) (by omega) hel
    omega
  have hwin : ∀ m, p0 ≤ m → m ≤ q →
      |(entry m).sec - (entry e).sec| ≤ 90 * ((index.val : Int) + 1) := by
    intro m h1 h2
    rw [abs_le]
    constructor
    · by_cases hme : m < e
      · have := b3 m h1 hme
        omega
      · have := hs e m hfe (by omega) (by omega)
        omega
    · by_cases hme : m ≤ e
      · have := hs m e (by omega) hme hel
        omega
      · have := f8 m (by omega) h2
        omega
  refine ⟨⟨by omega, by omega, hwin _ f3 f4⟩, ⟨by omega, by omega, hwin _ f5 f6⟩, ?_⟩
  intro p hp1 hp2 hp3
  rw [abs_le] at hp3
  have hp0 : p0 ≤ p := by
    by_contra hc
    have h1 := b4 (by omega)
    have h2 := hs p (p0 - 1) hp1 (by omega) (by omega)
    omega
  have hpq : p ≤ q := by
    by_contra hc
    have h1 := f9 (by omega)
    have h2 := hs (q + 1) p (by omega) (by omega) hp2
    omega
  exact f7 p hp0 hpq

/-- C5: for a plot whose entry times are non-decreasing, an entry `e` whose
time is at least 270 s away from both ends of the 32-bit range (so that the
window bounds `time - seconds` and `time + seconds` do not overflow) and a
window index `k`, after `analyze_plot_info_minmax_minute(e, first, last, k)`
(with `first`, `last` the bounds of the array, as `analyze_plot_info` passes
them) `e.min[k]` and `e.max[k]` point to entries of the array whose time is
within `90 * (k + 1)` seconds of `e.sec`, and `min[k].val ≤ p.val ≤ max[k].val`
for every entry `p` whose time is within `90 * (k + 1)` seconds of `e.sec`. -/
theorem analyze_plot_info_minmax_minute_window (pi : plot_info) (e : Nat) (k : Fin 3)
    (he : (e : Int) < pi.nr)
    (hr0 : -2147483648 + 270 ≤ (pi.entry e).sec) (hr1 : (pi.entry e).sec ≤ 2147483647 - 270)
    (hs : ∀ i j : Nat, i ≤ j → (j : Int) < pi.nr → (pi.entry i).sec ≤ (pi.entry j).sec) :
    ∃ mn mx : Nat,
      (analyze_plot_info_minmax_minute pi.entry e 0 pi.nr.toNat k e).min k = some mn ∧
      (analyze_plot_info_minmax_minute pi.entry e 0 pi.nr.toNat k e).max k = some mx ∧
      (mn : Int) < pi.nr ∧ (mx : Int) < pi.nr ∧
      |(pi.entry mn).sec - (pi.entry e).sec| ≤ 90 * ((k.val : Int) + 1) ∧
      |(pi.entry mx).sec - (pi.entry e).sec| ≤ 90 * ((k.val : Int) + 1) ∧
      ∀ p : Nat, (p : Int) < pi.nr →
        |(pi.entry p).sec - (pi.entry e).sec| ≤ 90 * ((k.val : Int) + 1) →
        (pi.entry mn).val ≤ (pi.entry p).val ∧ (pi.entry p).val ≤ (pi.entry mx).val := by
  obtain ⟨⟨_, a2, a3⟩, ⟨_, c2, c3⟩, d⟩ :=
    minmax_minute_acc_spec pi.entry e 0 pi.nr.toNat k (Nat.zero_le e) (by omega) hr0 hr1
      (fun i j _ hij hj => hs i j hij (by omega))
  refine ⟨(minmax_minute_acc pi.entry e 0 pi.nr.toNat k).min,
    (minmax_minute_acc pi.entry e 0 pi.nr.toNat k).max, ?_, ?_, by omega, by omega, a3, c3, ?_⟩
  · simp [analyze_plot_info_minmax_minute]
  · simp [analyze_plot_info_minmax_minute]
  · intro p hp hw
    exact d p (Nat.zero_le p) (by omega) hw

/-- Witness of `analyze_plot_info_minmax_minute_window` on `plotThree`, entry 0,
window 0. -/
theorem analyze_plot_info_minmax_minute_window_witness :
    ∃ mn mx : Nat,
      (analyze_plot_info_minmax_minute plotThree.entry 0 0 plotThree.nr.toNat 0 0).min 0
        = some mn ∧
      (analyze_plot_info_minmax_minute plotThree.entry 0 0 plotThree.nr.toNat 0 0).max 0
        = some mx ∧
      (mn : Int) < plotThree.nr ∧ (mx : Int) < plotThree.nr ∧
      |(plotThree.entry mn).sec - (plotThree.entry 0).sec| ≤ 90 * (((0 : Fin 3).val : Int) + 1) ∧
      |(plotThree.entry mx).sec - (plotThree.entry 0).sec| ≤ 90 * (((0 : Fin 3).val : Int) + 1) ∧
      ∀ p : Nat, (p : Int) < plotThree.nr →
        |(plotThree.entry p).sec - (plotThree.entry 0).sec|
          ≤ 90 * (((0 : Fin 3).val : Int) + 1) →
        (plotThree.entry mn).val ≤ (plotThree.entry p).val ∧
        (plotThree.entry p).val ≤ (plotThree.entry mx).val :=
  analyze_plot_info_minmax_minute_window plotThree 0 0 (by decide) (by decide) (by decide) (by
    intro i j hij hj
    have hj3 : j < 3 := by
      have : (j : Int) < 3 := hj
      omega
    interval_cases j <;> interval_cases i <;> decide)

/-- C6 on the code: in `plotNinety` the two entries are 90 s apart, and
`analyze_plot_info` makes `min[0]` of entry 0 point to entry 1, which is not
within one minute of entry 0. -/
theorem analyze_plot_info_min_beyond_one_minute :
    ((analyze_plot_info plotNinety).entry 0).min 0 = some 1 ∧
    (plotNinety.entry 1).sec - (plotNinety.entry 0).sec = 90 ∧
    ¬ |(plotNinety.entry 1).sec - (plotNinety.entry 0).sec| ≤ 60 * (((0 : Fin 3).val : Int) + 1) := by
  refine ⟨by decide, by decide, ?_⟩
  have h : (plotNinety.entry 1).sec - (plotNinety.entry 0).sec = 90 := by decide
  rw [h]
  decide

/-! ### `analyze_plot_info`: smoothing -/

theorem analyze_plot_info_minmax_minute_frame (entry : Nat → plot_data) (e first last : Nat)
    (index : Fin 3) (j : Nat) :
    (analyze_plot_info_minmax_minute entry e first last index j).val = (entry j).val ∧
    (analyze_plot_info_minmax_minute entry e first last index j).sec = (entry j).sec ∧
    (analyze_plot_info_minmax_minute entry e first last index j).smoothed
      = (entry j).smoothed := by
  unfold analyze_plot_info_minmax_minute
  by_cases h : j = e
  · subst h; simp
  · simp [Function.update_noteq h]

theorem analyze_plot_info_minmax_frame (entry : Nat → plot_data) (e first last : Nat)
    (j : Nat) :
    (analyze_plot_info_minmax entry e first last j).val = (entry j).val ∧
    (analyze_plot_info_minmax entry e first last j).sec = (entry j).sec ∧
    (analyze_plot_info_minmax entry e first last j).smoothed = (entry j).smoothed := by
  unfold analyze_plot_info_minmax
  obtain ⟨a1, a2, a3⟩ := analyze_plot_info_minmax_minute_frame entry e first last 0 j
  obtain ⟨b1, b2, b3⟩ := analyze_plot_info_minmax_minute_frame
    (analyze_plot_info_minmax_minute entry e first last 0) e first last 1 j
  obtain ⟨c1, c2, c3⟩ := analyze_plot_info_minmax_minute_frame
    (analyze_plot_info_minmax_minute (analyze_plot_info_minmax_minute entry e first last 0)
      e first last 1) e first last 2 j
  exact ⟨by rw [c1, b1, a1], by rw [c2, b2, a2], by rw [c3, b3, a3]⟩

theorem minmax_loop_frame (nr : Nat) (j : Nat) :
    ∀ (n i : Nat) (entry : Nat → plot_data),
      (minmax_loop nr n i entry j).val = (entry j).val ∧
      (minmax_loop nr n i entry j).sec = (entry j).sec ∧
      (minmax_loop nr n i entry j).smoothed = (entry j).smoothed := by
  intro n
  induction n with
  | zero => intro i entry; exact ⟨rfl, rfl, rfl⟩
  | succ n ih =>
    intro i entry
    simp only [minmax_loop]
    obtain ⟨a1, a2, a3⟩ := ih (i + 1) (analyze_plot_info_minmax entry i 0 nr)
    obtain ⟨b1, b2, b3⟩ := analyze_plot_info_minmax_frame entry i 0 nr j
    exact ⟨by rw [a1, b1], by rw [a2, b2], by rw [a3, b3]⟩

theorem smooth_loop_val (j : Nat) :
    ∀ (n i : Nat) (entry : Nat → plot_data),
      (smooth_loop n i entry j).val = (entry j).val ∧
      (smooth_loop n i entry j).sec = (entry j).sec := by
  intro n
  induction n with
  | zero => intro i entry; exact ⟨rfl, rfl⟩
  | succ n ih =>
    intro i entry
    simp only [smooth_loop]
    obtain ⟨a1, a2⟩ := ih (i + 1)
      (Function.update entry i { entry i with smoothed := smooth_stored entry i })
    have e : smooth_stored entry i
        = Int.tdiv
            (add32 (add32 (add32 (add32 (add32 (entry (i - 2)).val (mul32 2 (entry (i - 1)).val))
              (mul32 3 (entry i).val)) (mul32 2 (entry (i + 1)).val)) (entry (i + 2)).val) 4)
            9 := rfl
    rw [← e, a1, a2]
    by_cases h : j = i
    · subst h; simp
    · simp [Function.update_noteq h]

theorem smooth_loop_smoothed_before (j : Nat) :
    ∀ (n i : Nat) (entry : Nat → plot_data), j < i →
      (smooth_loop n i entry j).smoothed = (entry j).smoothed := by
  intro n
  induction n with
  | zero => intro i entry _; rfl
  | succ n ih =>
    intro i entry hj
    simp only [smooth_loop]
    rw [ih (i + 1) _ (by omega), Function.update_noteq (by omega)]

theorem smooth_stored_congr (a b : Nat → plot_data) (h : ∀ k, (a k).val = (b k).val)
    (j : Nat) : smooth_stored a j = smooth_stored b j := by
  unfold smooth_stored
  rw [h (j - 2), h (j - 1), h j, h (j + 1), h (j + 2)]

theorem smooth_loop_smoothed (j : Nat) :
    ∀ (n i : Nat) (entry : Nat → plot_data), i ≤ j → j < i + n →
      (smooth_loop n i entry j).smoothed = smooth_stored entry j := by
  intro n
  induction n with
  | zero => intro i entry h1 h2; omega
  | succ n ih =>
    intro i entry h1 h2
    simp only [smooth_loop]
    have e : Int.tdiv
        (add32 (add32 (add32 (add32 (add32 (entry (i - 2)).val (mul32 2 (entry (i - 1)).val))
          (mul32 3 (entry i).val)) (mul32 2 (entry (i + 1)).val)) (entry (i + 2)).val) 4) 9
        = smooth_stored entry i := rfl
    rw [e]
    by_cases h : j = i
    · subst h
      rw [smooth_loop_smoothed_before j n (j + 1) _ (by omega)]
      simp
    · rw [ih (i + 1) _ (by omega) (by omega)]
      have hv : ∀ k, ((Function.update entry i
          { entry i with smoothed := smooth_stored entry i }) k).val = (entry k).val := by
        intro k
        by_cases hk : k = i
        · subst hk; simp
        · simp [Function.update_noteq hk]
      exact smooth_stored_congr _ _ hv j

/-- Inside the range `0 .. 238609293` of the five depths no step of the
smoothing expression wraps: the stored value is `(S + 4) / 9`. -/
theorem smooth_stored_of_fits (entry : Nat → plot_data) (i : Nat)
    (h : ∀ j, i - 2 ≤ j → j ≤ i + 2 → 0 ≤ (entry j).val ∧ (entry j).val ≤ 238609293) :
    smooth_stored entry i = (smooth_sum entry i + 4) / 9 := by
  have ha := h (i - 2) (by omega) (by omega)
  have hb := h (i - 1) (by omega) (by omega)
  have hc := h i (by omega) (by omega)
  have hd := h (i + 1) (by omega) (by omega)
  have he := h (i + 2) (by omega) (by omega)
  unfold smooth_stored smooth_sum
  have m2b : mul32 2 (entry (i - 1)).val = 2 * (entry (i - 1)).val :=
    wrap32_of_fits _ (by omega) (by omega)
  have m3c : mul32 3 (entry i).val = 3 * (entry i).val :=
    wrap32_of_fits _ (by omega) (by omega)
  have m2d : mul32 2 (entry (i + 1)).val = 2 * (entry (i + 1)).val :=
    wrap32_of_fits _ (by omega) (by omega)
  rw [m2b, m3c, m2d]
  have s1 : add32 (entry (i - 2)).val (2 * (entry (i - 1)).val)
      = (entry (i - 2)).val + 2 * (entry (i - 1)).val :=
    wrap32_of_fits _ (by omega) (by omega)
  rw [s1]
  have s2 : add32 ((entry (i - 2)).val + 2 * (entry (i - 1)).val) (3 * (entry i).val)
      = (entry (i - 2)).val + 2 * (entry (i - 1)).val + 3 * (entry i).val :=
    wrap32_of_fits _ (by omega) (by omega)
  rw [s2]
  have s3 : add32 ((entry (i - 2)).val + 2 * (entry (i - 1)).val + 3 * (entry i).val)
        (2 * (entry (i + 1)).val)
      = (entry (i - 2)).val + 2 * (entry (i - 1)).val + 3 * (entry i).val
        + 2 * (entry (i + 1)).val :=
    wrap32_of_fits _ (by omega) (by omega)
  rw [s3]
  have s4 : add32 ((entry (i - 2)).val + 2 * (entry (i - 1)).val + 3 * (entry i).val
        + 2 * (entry (i + 1)).val) (entry (i + 2)).val
      = (entry (i - 2)).val + 2 * (entry (i - 1)).val + 3 * (entry i).val
        + 2 * (entry (i + 1)).val + (entry (i + 2)).val :=
    wrap32_of_fits _ (by omega) (by omega)
  rw [s4]
  have s5 : add32 ((entry (i - 2)).val + 2 * (entry (i - 1)).val + 3 * (entry i).val
        + 2 * (entry (i + 1)).val + (entry (i + 2)).val) 4
      = (entry (i - 2)).val + 2 * (entry (i - 1)).val + 3 * (entry i).val
        + 2 * (entry (i + 1)).val + (entry (i + 2)).val + 4 :=
    wrap32_of_fits _ (by omega) (by omega)
  rw [s5, Int.tdiv_eq_ediv (by omega) (by omega)]

/-- C7: for a plot with non-negative depths, `2 ≤ i < nr - 2` and the five
depths around `i` at most 238609293 mm (so that the weighted sum fits a 32-bit
`int`), `analyze_plot_info` leaves every `val` as it was and sets
`entry[i].smoothed` to `(S + 4) / 9` for the weighted sum `S` of the five
unsmoothed depths around `i`: the mean `S / 9` rounded to the nearest integer
(`|9 * smoothed - S| ≤ 4`), which lies between the least and the greatest of
the five depths; when the five depths are one value `v`, `smoothed` is `v`. -/
theorem analyze_plot_info_smoothed (pi : plot_info) (i : Nat) (h2 : 2 ≤ i)
    (hi : (i : Int) < pi.nr - 2)
    (hnn : ∀ j : Nat, (j : Int) < pi.nr → 0 ≤ (pi.entry j).val)
    (hub : ∀ j : Nat, i - 2 ≤ j → j ≤ i + 2 → (pi.entry j).val ≤ 238609293) :
    (∀ j, ((analyze_plot_info pi).entry j).val = (pi.entry j).val) ∧
    ((analyze_plot_info pi).entry i).smoothed = (smooth_sum pi.entry i + 4) / 9 ∧
    |9 * ((analyze_plot_info pi).entry i).smoothed - smooth_sum pi.entry i| ≤ 4 ∧
    min (min (min (min (pi.entry (i - 2)).val (pi.entry (i - 1)).val) (pi.entry i).val)
        (pi.entry (i + 1)).val) (pi.entry (i + 2)).val
      ≤ ((analyze_plot_info pi).entry i).smoothed ∧
    ((analyze_plot_info pi).entry i).smoothed
      ≤ max (max (max (max (pi.entry (i - 2)).val (pi.entry (i - 1)).val) (pi.entry i).val)
        (pi.entry (i + 1)).val) (pi.entry (i + 2)).val ∧
    (∀ v, (pi.entry (i - 2)).val = v → (pi.entry (i - 1)).val = v → (pi.entry i).val = v →
      (pi.entry (i + 1)).val = v → (pi.entry (i + 2)).val = v →
      ((analyze_plot_info pi).entry i).smoothed = v) := by
  have hval : ∀ j, ((analyze_plot_info pi).entry j).val = (pi.entry j).val := by
    intro j
    unfold analyze_plot_info
    dsimp only
    rw [(minmax_loop_frame _ j _ _ _).1, (smooth_loop_val j _ _ _).1]
  have ha := hnn (i - 2) (by omega)
  have hb := hnn (i - 1) (by omega)
  have hc := hnn i (by omega)
  have hd := hnn (i + 1) (by push_cast; omega)
  have he := hnn (i + 2) (by push_cast; omega)
  have hS : 0 ≤ smooth_sum pi.entry i := by unfold smooth_sum; omega
  have hsm : ((analyze_plot_info pi).entry i).smoothed = (smooth_sum pi.entry i + 4) / 9 := by
    unfold analyze_plot_info
    dsimp only
    rw [(minmax_loop_frame _ i _ _ _).2.2,
      smooth_loop_smoothed i _ 2 pi.entry h2 (by omega)]
    apply smooth_stored_of_fits
    intro j hj0 hj1
    exact ⟨hnn j (by omega), hub j hj0 hj1⟩
  refine ⟨hval, hsm, ?_, ?_, ?_, ?_⟩
  · rw [hsm, abs_le]
    omega
  · rw [hsm]
    unfold smooth_sum
    simp only [min_le_iff]
    omega
  · rw [hsm]
    unfold smooth_sum
    simp only [le_max_iff]
    omega
  · intro v e1 e2 e3 e4 e5
    rw [hsm]
    unfold smooth_sum
    rw [e1, e2, e3, e4, e5]
    omega

/-- Witness of `analyze_plot_info_smoothed` on `plotFive`, entry 2. -/
theorem analyze_plot_info_smoothed_witness :
    (∀ j, ((analyze_plot_info plotFive).entry j).val = (plotFive.entry j).val) ∧
    ((analyze_plot_info plotFive).entry 2).smoothed = (smooth_sum plotFive.entry 2 + 4) / 9 ∧
    |9 * ((analyze_plot_info plotFive).entry 2).smoothed - smooth_sum plotFive.entry 2| ≤ 4 ∧
    min (min (min (min (plotFive.entry (2 - 2)).val (plotFive.entry (2 - 1)).val)
        (plotFive.entry 2).val) (plotFive.entry (2 + 1)).val) (plotFive.entry (2 + 2)).val
      ≤ ((analyze_plot_info plotFive).entry 2).smoothed ∧
    ((analyze_plot_info plotFive).entry 2).smoothed
      ≤ max (max (max (max (plotFive.entry (2 - 2)).val (plotFive.entry (2 - 1)).val)
        (plotFive.entry 2).val) (plotFive.entry (2 + 1)).val) (plotFive.entry (2 + 2)).val ∧
    (∀ v, (plotFive.entry (2 - 2)).val = v → (plotFive.entry (2 - 1)).val = v →
      (plotFive.entry 2).val = v → (plotFive.entry (2 + 1)).val = v →
      (plotFive.entry (2 + 2)).val = v →
      ((analyze_plot_info plotFive).entry 2).smoothed = v) :=
  analyze_plot_info_smoothed plotFive 2 (by decide) (by decide)
    (by
      intro j hj
      have hj5 : j < 5 := by
        have : (j : Int) < 5 := hj
        omega
      interval_cases j <;> decide)
    (by
      intro j hj0 hj1
      have hj5 : j < 5 := by omega
      interval_cases j <;> decide)

/-! ### Outside the 32-bit range -/

/-- The duration of a leg wraps when the difference of the two times does not
fit 32 bits: from the times `-2` and `2^31 - 1` the leg gets `-(2^31 - 1)`. -/
theorem createDivePlanFromComputer_duration_wraps :
    createDivePlanFromComputer dcWrap
      = some { dp := [{ time := -2147483647, depth := 1000, cylinderid := 0, setpoint := 0,
                        entered := true, divemode := divemode_t.OC }] } := by
  decide

/-- The forward scan stops at once when `time + seconds` wraps: for entry 1 of
`plotLate` and window 0 both `min[0]` and `max[0]` end up on entry 0, although
entry 1 is the shallowest and entry 2 the deepest within 90 s. -/
theorem analyze_plot_info_minmax_minute_wraps :
    (analyze_plot_info_minmax_minute plotLate.entry 1 0 plotLate.nr.toNat 0 1).min 0 = some 0 ∧
    (analyze_plot_info_minmax_minute plotLate.entry 1 0 plotLate.nr.toNat 0 1).max 0 = some 0 := by
  decide

/-- The smoothed depth wraps when the weighted sum does not fit 32 bits: five
depths of 300000000 mm give `smoothed = -177218588`. -/
theorem analyze_plot_info_smoothed_wraps :
    ((analyze_plot_info plotDeep).entry 2).smoothed = -177218588 := by
  decide

end Subsurface
